import Mathlib

set_option maxHeartbeats 1000000

/-!
# Verification of the news-pipeline core

Shallow embedding of the ingestion–enrichment–delivery pipeline:
the dedup ledger (`src/database.py`), the publisher (`src/telegram_bot.py`),
the feed aggregator (`src/rss_parser.py`), the image extractor
(`src/image_extractor.py`) and the orchestrator (`main.py`).

Network and storage effects are modelled by explicit outcome parameters:
each function takes the outcome an external call would produce and the
embedding reproduces the control flow of the Python source on top of it.
-/

namespace NewsBot

/-! ## DedupLedger — `src/database.py` (class `Database`) -/

/-- A row of the `processed_articles` table.  `processed_at` models the
`CURRENT_TIMESTAMP` default as seconds. -/
structure LedgerRecord where
  link : String
  title : String
  source : String
  processed_at : Nat
  deriving Repr, DecidableEq

/-- The SQLite store: the single table plus the database clock used for
`CURRENT_TIMESTAMP` / `datetime('now', ...)`. -/
structure Database where
  records : List LedgerRecord
  clock : Nat
  deriving Repr, DecidableEq

/-- Outcome of the `with self._get_connection()` block: either the SQL
statements run, or an `sqlite3.Error` is raised inside the block (the
connection then rolls back, leaving the store unchanged). -/
inductive StoreOutcome where
  | ok
  | fail
  deriving Repr, DecidableEq

/-- `SELECT 1 FROM processed_articles WHERE link = ? LIMIT 1` is non-empty. -/
def containsLink (db : Database) (link : String) : Bool :=
  db.records.any (fun r => r.link == link)

/-- `Database.is_processed` (database.py:82-102): existence check; on
`sqlite3.Error` it logs and returns `False`. -/
def is_processed (db : Database) (link : String) : StoreOutcome → Bool
  | .ok => containsLink db link
  | .fail => false

/-- `INSERT OR IGNORE INTO processed_articles (link, title, source)`:
returns the updated table and the cursor's rowcount. -/
def insertOrIgnore (db : Database) (link title source : String) : Database × Nat :=
  if containsLink db link then (db, 0)
  else ({ db with records := db.records ++ [⟨link, title, source, db.clock⟩] }, 1)

/-- `Database.mark_processed` (database.py:104-129): insert-or-ignore, result
`rowcount > 0`; on `sqlite3.Error` it rolls back and returns `False`. -/
def mark_processed (db : Database) (link title source : String) :
    StoreOutcome → Database × Bool
  | .ok =>
      let r := insertOrIgnore db link title source
      (r.1, decide (0 < r.2))
  | .fail => (db, false)

/-- Result shape of `Database.get_stats`. -/
structure DbStats where
  total : Nat
  last_processed : Option Nat
  by_source : List (String × Nat)
  last_24h : Nat
  deriving Repr, DecidableEq

/-- `Database.get_stats` (database.py:131-178); on `sqlite3.Error` it returns
the zeroed dictionary `{"total": 0, "last_processed": None, "by_source": {},
"last_24h": 0}`. -/
def get_stats (db : Database) : StoreOutcome → DbStats
  | .ok =>
      { total := db.records.length
        last_processed := (db.records.map (·.processed_at)).max?
        by_source :=
          ((db.records.map (·.source)).dedup).map
            (fun s => (s, (db.records.filter (fun r => r.source == s)).length))
        last_24h :=
          (db.records.filter (fun r => decide (db.clock - 86400 < r.processed_at))).length }
  | .fail => { total := 0, last_processed := none, by_source := [], last_24h := 0 }

/-- `Database.cleanup_old` (database.py:180-210): deletes rows older than
`days` days and returns the number deleted; on `sqlite3.Error` it rolls back
and returns `0`. -/
def cleanup_old (db : Database) (days : Nat) : StoreOutcome → Database × Nat
  | .ok =>
      let keep := db.records.filter
        (fun r => decide (db.clock - days * 86400 ≤ r.processed_at))
      ({ db with records := keep }, db.records.length - keep.length)
  | .fail => (db, 0)

/-! ## Publisher — `src/telegram_bot.py` (class `TelegramPoster`) -/

/-- The truncation marker appended by `_send_text` when the message is cut. -/
def truncMarker : String := "\n\n<i>... (сообщение обрезано)</i>"

/-- The caption `_send_with_image` sends: `text[:1024] if len(text) > 1024
else text` (telegram_bot.py:153). -/
def caption_for (text : String) : String :=
  if 1024 < text.length then String.mk (text.data.take 1024) else text

/-- The body `_send_text` sends: `text[:4000] + marker` when
`len(text) > 4096`, otherwise `text` unchanged (telegram_bot.py:115-116). -/
def message_for (text : String) : String :=
  if 4096 < text.length then String.mk (text.data.take 4000 ++ truncMarker.data) else text

/-- Outcomes of the two HTTP primitives: whether `sendPhoto` and
`sendMessage` would return status 200 (exceptions inside `_send_with_image`
and `_send_text` are caught there and reported as `False`, so a boolean
outcome covers every failure mode). -/
structure SendEnv where
  photoOk : Bool
  textOk : Bool
  deriving Repr, DecidableEq

/-- A delivery attempt made against the messaging destination. -/
inductive Delivery where
  | photo (image caption : String)
  | message (body : String)
  deriving Repr, DecidableEq

/-- `TelegramPoster.post` (telegram_bot.py:67-98): with an image URL, try
`_send_with_image`; if that returns `False`, fall back to `_send_text` on the
original text.  Returns the overall result and the attempts made. -/
def post (text : String) (image_url : Option String) (e : SendEnv) :
    Bool × List Delivery :=
  match image_url with
  | some img =>
      if e.photoOk then (true, [Delivery.photo img (caption_for text)])
      else (e.textOk, [Delivery.photo img (caption_for text),
                       Delivery.message (message_for text)])
  | none => (e.textOk, [Delivery.message (message_for text)])

/-! ## FeedAggregator — `src/rss_parser.py` (class `RSSParser`) -/

/-- The apostrophe character, `'`. -/
def apos : Char := Char.ofNat 39

/-- Python's `\s` on the character set these feeds produce (ASCII whitespace:
space, tab, newline, carriage return, vertical tab, form feed). -/
def pyIsSpace (c : Char) : Bool :=
  c == ' ' || c == '\t' || c == '\n' || c == '\r' ||
  c == Char.ofNat 11 || c == Char.ofNat 12

/-- `re.sub(r"<[^>]+>", " ", text)` as a character scanner.  The second
argument buffers (reversed) the characters seen since an unconsumed `<`:
when a `>` arrives with a non-empty buffer the whole `<...>` run becomes one
space; `<>` and an unclosed `<...` are left verbatim, exactly as the regex
(which requires at least one non-`>` character) leaves them unmatched. -/
def stripTags : List Char → Option (List Char) → List Char
  | [], none => []
  | [], some buf => '<' :: buf.reverse
  | c :: rest, none =>
      if c == '<' then stripTags rest (some [])
      else c :: stripTags rest none
  | c :: rest, some buf =>
      if c == '>' then
        (if buf.isEmpty then '<' :: '>' :: stripTags rest none
         else ' ' :: stripTags rest none)
      else stripTags rest (some (c :: buf))

/-- `re.sub(r"\s+", " ", ...)`: collapse each whitespace run to one space.
The flag records whether the previous character was whitespace. -/
def collapseWs : Bool → List Char → List Char
  | _, [] => []
  | prev, c :: rest =>
      if pyIsSpace c then
        (if prev then collapseWs true rest else ' ' :: collapseWs true rest)
      else c :: collapseWs false rest

/-- Remove a whitespace suffix (the trailing half of `str.strip()`). -/
def dropTrailingWs : List Char → List Char
  | [] => []
  | c :: rest =>
      match dropTrailingWs rest with
      | [] => if pyIsSpace c then [] else [c]
      | r => c :: r

/-- `str.strip()`. -/
def stripEnds (l : List Char) : List Char :=
  dropTrailingWs (l.dropWhile pyIsSpace)

/-- The fixed entity table of `_clean_html`, in source (dict) order. -/
def entityTable : List (List Char × List Char) :=
  [("&amp;".data, "&".data),
   ("&lt;".data, "<".data),
   ("&gt;".data, ">".data),
   ("&quot;".data, "\"".data),
   ("&#39;".data, [apos]),
   ("&nbsp;".data, " ".data),
   ("&mdash;".data, "—".data),
   ("&ndash;".data, "–".data)]

/-- `str.replace(pat, rep)`: replace all non-overlapping occurrences, left to
right.  The fuel argument (instantiated with the input length) only serves
termination: every step consumes at least one character of `s` because each
`pat` in the entity table is non-empty. -/
def replaceAllGo : Nat → List Char → List Char → List Char → List Char
  | 0, s, _, _ => s
  | Nat.succ fuel, s, pat, rep =>
      match s with
      | [] => []
      | c :: rest =>
          if pat.isPrefixOf s then rep ++ replaceAllGo fuel (s.drop pat.length) pat rep
          else c :: replaceAllGo fuel rest pat rep

/-- `str.replace(pat, rep)` over character lists. -/
def replaceAll (s pat rep : List Char) : List Char :=
  replaceAllGo s.length s pat rep

/-- The entity-decoding loop of `_clean_html` (rss_parser.py:128-139): the
replacements are applied sequentially in table order. -/
def decodeEntities (l : List Char) : List Char :=
  entityTable.foldl (fun acc pr => replaceAll acc pr.1 pr.2) l

/-- `RSSParser._clean_html` (rss_parser.py:117-142): strip tags, collapse
whitespace and strip ends, decode entities, cap at 2000 characters — in that
order. -/
def clean_html (text : String) : String :=
  if text.isEmpty then ""
  else
    let noTags := stripTags text.data none
    let collapsed := stripEnds (collapseWs false noTags)
    String.mk ((decodeEntities collapsed).take 2000)

/-- `RSSParser._clean_text` (rss_parser.py:144-149). -/
def clean_text (text : String) : String :=
  if text.isEmpty then "" else String.mk (stripEnds (collapseWs false text.data))

/-- A normalized item as produced by `fetch_feed`.  `published` is the
timestamp as seconds (datetimes compare like naturals here). -/
structure Article where
  title : String
  link : String
  summary : String
  content : String
  published : Nat
  author : String
  source : String
  source_icon : String
  deriving Repr, DecidableEq

/-- A raw feed entry before normalization: `entry.get(...)` fields.
`published` is `none` when the date is missing or unparsable
(`_parse_date` then falls back to `datetime.now()`). -/
structure RawEntry where
  title : Option String
  link : Option String
  summary : Option String
  published : Option Nat
  author : Option String
  content : Option String
  deriving Repr, DecidableEq

/-- The per-entry body of `fetch_feed` (rss_parser.py:60-78): clean the
title, clean the summary, clean the body content (falling back to the
already-cleaned summary when the entry carries no content), default the
date to "now". -/
def toArticle (now : Nat) (name icon : String) (e : RawEntry) : Article :=
  let summ := clean_html (e.summary.getD "")
  { title := clean_text (e.title.getD "Без заголовка")
    link := e.link.getD ""
    summary := summ
    content :=
      match e.content with
      | some c => clean_html c
      | none => summ
    published := e.published.getD now
    author := e.author.getD ""
    source := name
    source_icon := icon }

/-- `RSSParser.fetch_feed` (rss_parser.py:33-85): on any fetch/parse
exception contribute zero items; otherwise normalize the first 10 entries. -/
def fetch_feed (now : Nat) (name icon : String) :
    Option (List RawEntry) → List Article
  | none => []
  | some entries => (entries.take 10).map (toArticle now name icon)

/-- Stable descending insertion by `published`: the new item goes after
every existing item with an equal-or-greater timestamp. -/
def insertDesc (a : Article) : List Article → List Article
  | [] => [a]
  | b :: rest =>
      if b.published < a.published then a :: b :: rest
      else b :: insertDesc a rest

/-- `list.sort(key=..., reverse=True)` is a stable sort by `published`
descending; a stable sort is a unique function of its input, embedded here
as stable insertion. -/
def sortDesc (l : List Article) : List Article :=
  l.foldl (fun acc a => insertDesc a acc) []

/-- `RSSParser.fetch_all` (rss_parser.py:87-115): concatenate the per-source
results (failed sources contributed `[]` already) and sort by date, newest
first. -/
def fetch_all (perSource : List (List Article)) : List Article :=
  sortDesc (perSource.foldl (fun acc r => acc ++ r) [])

/-! ## ImageResolver — `src/image_extractor.py` (class `ImageExtractor`)

The four `OG_IMAGE_PATTERNS` regexes all have the same shape: literals,
greedy `[^>]+` gaps, a `["']` quote class and one greedy `([^"']+)` capture.
They are embedded as token lists run by a small backtracking matcher with
Python `re` semantics: leftmost starting position, and at each greedy token
the longest consumption first. -/

/-- One regex token of the meta-tag patterns. -/
inductive Tok where
  | lit (s : List Char)
  | plus (p : Char → Bool)
  | quote
  | cap (p : Char → Bool)

/-- Case-insensitive character comparison (`re.IGNORECASE`, ASCII input). -/
def lowerEq (a b : Char) : Bool := a.toLower == b.toLower

/-- Match a literal case-insensitively, returning the remaining input. -/
def stripLit : List Char → List Char → Option (List Char)
  | [], input => some input
  | _ :: _, [] => none
  | c :: cs, d :: ds => if lowerEq c d then stripLit cs ds else none

/-- Backtracking over a greedy one-or-more token: try consuming `k` down to
`1` characters and continue with `f` on the rest. -/
def tryLens (f : List Char → Option (List Char)) (input : List Char) :
    Nat → Option (List Char)
  | 0 => none
  | Nat.succ k =>
      match f (input.drop (Nat.succ k)) with
      | some r => some r
      | none => tryLens f input k

/-- Same backtracking for the (single) capture group: on success return the
captured characters themselves. -/
def tryCapLens (f : List Char → Option (List Char)) (input : List Char) :
    Nat → Option (List Char)
  | 0 => none
  | Nat.succ k =>
      match f (input.drop (Nat.succ k)) with
      | some _ => some (input.take (Nat.succ k))
      | none => tryCapLens f input k

/-- Match a token sequence at the start of the input (the rest of the input
may remain); returns `group(1)` of the match. -/
def matchToks : List Tok → List Char → Option (List Char)
  | [], _ => some []
  | Tok.lit s :: rest, input =>
      match stripLit s input with
      | some rem => matchToks rest rem
      | none => none
  | Tok.quote :: rest, input =>
      match input with
      | [] => none
      | c :: rem => if c == '"' || c == apos then matchToks rest rem else none
  | Tok.plus p :: rest, input =>
      tryLens (matchToks rest) input (input.takeWhile p).length
  | Tok.cap p :: rest, input =>
      tryCapLens (matchToks rest) input (input.takeWhile p).length

/-- `pattern.search(html)`: try every start position, leftmost first. -/
def searchToks (toks : List Tok) : List Char → Option (List Char)
  | [] => matchToks toks []
  | c :: rest =>
      match matchToks toks (c :: rest) with
      | some cap => some cap
      | none => searchToks toks rest

/-- `[^>]` — any character other than `>`. -/
def notGt (c : Char) : Bool := c != '>'

/-- `[^"']` — any character other than a quote. -/
def notQuote (c : Char) : Bool := c != '"' && c != apos

/-- `og:image` with `property` before `content` (image_extractor.py:26-29). -/
def ogPattern1 : List Tok :=
  [Tok.lit "<meta".data, Tok.plus notGt, Tok.lit "property=".data, Tok.quote,
   Tok.lit "og:image".data, Tok.quote, Tok.plus notGt, Tok.lit "content=".data,
   Tok.quote, Tok.cap notQuote, Tok.quote]

/-- `og:image` with `content` before `property` (image_extractor.py:30-33). -/
def ogPattern2 : List Tok :=
  [Tok.lit "<meta".data, Tok.plus notGt, Tok.lit "content=".data, Tok.quote,
   Tok.cap notQuote, Tok.quote, Tok.plus notGt, Tok.lit "property=".data,
   Tok.quote, Tok.lit "og:image".data, Tok.quote]

/-- `twitter:image` with `name` before `content` (image_extractor.py:35-38). -/
def twPattern1 : List Tok :=
  [Tok.lit "<meta".data, Tok.plus notGt, Tok.lit "name=".data, Tok.quote,
   Tok.lit "twitter:image".data, Tok.quote, Tok.plus notGt, Tok.lit "content=".data,
   Tok.quote, Tok.cap notQuote, Tok.quote]

/-- `twitter:image` with `content` before `name` (image_extractor.py:39-42). -/
def twPattern2 : List Tok :=
  [Tok.lit "<meta".data, Tok.plus notGt, Tok.lit "content=".data, Tok.quote,
   Tok.cap notQuote, Tok.quote, Tok.plus notGt, Tok.lit "name=".data,
   Tok.quote, Tok.lit "twitter:image".data, Tok.quote]

/-- `ImageExtractor.OG_IMAGE_PATTERNS`, in priority order. -/
def OG_IMAGE_PATTERNS : List (List Tok) :=
  [ogPattern1, ogPattern2, twPattern1, twPattern2]

/-- Contiguous-substring test (Python's `in` on strings). -/
def containsSub (pat : List Char) : List Char → Bool
  | [] => pat.isEmpty
  | c :: rest => pat.isPrefixOf (c :: rest) || containsSub pat rest

/-- `ImageExtractor._is_valid_image_url` (image_extractor.py:125-149). -/
def is_valid_image_url (url : String) : Bool :=
  if url.isEmpty || url.length < 10 then false
  else
    let l := url.data.map Char.toLower
    ([".jpg".data, ".jpeg".data, ".png".data, ".gif".data, ".webp".data].any
       (fun ext => ext.isSuffixOf l || containsSub (ext ++ ['?']) l))
    || (["imgur".data, "cloudinary".data, "wp.com".data, "medium.com".data,
         "cdn".data].any (fun d => containsSub d l))
    || (["image".data, "img".data, "photo".data, "media".data,
         "upload".data].any (fun k => containsSub k l))

/-- Split the input at the first occurrence of `pat` (before, after). -/
def splitOnSub (pat : List Char) : List Char → Option (List Char × List Char)
  | [] => if pat.isEmpty then some ([], []) else none
  | c :: rest =>
      if pat.isPrefixOf (c :: rest) then some ([], (c :: rest).drop pat.length)
      else
        match splitOnSub pat rest with
        | some (before, after) => some (c :: before, after)
        | none => none

/-- Keep everything up to and including the last `/`. -/
def keepThroughLastSlash (l : List Char) : List Char :=
  (l.reverse.dropWhile (fun c => c != '/')).reverse

/-- Model of the library function `urllib.parse.urljoin` restricted to the
http(s) bases this pipeline produces: network-relative (`//…`), absolute-path
(`/…`) and plain relative references are resolved against the page URL
(dot-segment normalization is not modelled). -/
def urljoin (base rel : String) : String :=
  match splitOnSub "://".data base.data with
  | none => rel
  | some (scheme, hostPath) =>
      if "http://".data.isPrefixOf (rel.data.map Char.toLower) ||
         "https://".data.isPrefixOf (rel.data.map Char.toLower) then rel
      else if "//".data.isPrefixOf rel.data then
        String.mk (scheme ++ [':'] ++ rel.data)
      else
        let host := hostPath.takeWhile (fun c => c != '/')
        let path := hostPath.drop host.length
        if "/".data.isPrefixOf rel.data then
          String.mk (scheme ++ "://".data ++ host ++ rel.data)
        else
          let dir := keepThroughLastSlash path
          String.mk (scheme ++ "://".data ++ host ++
            (if dir.isEmpty then ['/'] else dir) ++ rel.data)

/-- image_extractor.py:104-106: relative candidates are made absolute
against the page URL. -/
def absolutize (pageUrl cand : String) : String :=
  if "http://".data.isPrefixOf cand.data || "https://".data.isPrefixOf cand.data then cand
  else urljoin pageUrl cand

/-- What one pattern contributes on this page: its `group(1)`, absolutized. -/
def candidateOf (pageUrl html : String) (p : List Tok) : Option String :=
  (searchToks p html.data).map (fun cap => absolutize pageUrl (String.mk cap))

/-- The pattern loop of `extract` (image_extractor.py:99-110): for each
pattern in order, if it matches, absolutize and return the candidate when it
validates; otherwise — including when a matched candidate fails validation —
continue with the next pattern. -/
def firstValidCandidate (pageUrl html : String) : List (List Tok) → Option String
  | [] => none
  | p :: ps =>
      match candidateOf pageUrl html p with
      | some u =>
          if is_valid_image_url u then some u
          else firstValidCandidate pageUrl html ps
      | none => firstValidCandidate pageUrl html ps

/-- Outcome of the page fetch inside `extract`. -/
inductive FetchOutcome where
  | success (html : String)
  | httpStatusError
  | timeoutError
  | otherError
  deriving Repr

/-- `ImageExtractor.extract` (image_extractor.py:76-123): run the pattern
loop on the fetched body; every error path returns `None`. -/
def extract (pageUrl : String) : FetchOutcome → Option String
  | .success html => firstValidCandidate pageUrl html OG_IMAGE_PATTERNS
  | .httpStatusError => none
  | .timeoutError => none
  | .otherError => none

/-! ## Orchestrator — `main.py` (class `NewsBot` and `main`) -/

/-- The run statistics dictionary built by `NewsBot.run` (main.py:117-124);
the two timestamps are omitted, they carry no pipeline state. -/
structure RunStats where
  articles_found : Nat
  articles_new : Nat
  articles_processed : Nat
  articles_failed : Nat
  errors : List String
  deriving Repr, DecidableEq

/-- Outcomes of the three per-item collaborator calls for one article:
what `image_extractor.extract`, `summarizer.summarize` and `telegram.post`
return when called (`extract` and `summarize` return `None` on their
internal failures rather than raising; `post` returns a boolean). -/
structure ItemEnv where
  imageResult : Option String
  summaryResult : Option String
  publishOk : Bool
  deriving Repr, DecidableEq

/-- Observable actions of a run, in order. -/
inductive Event where
  | connectivityCheck
  | fetch
  | imageExtract (link : String)
  | summarize (link : String)
  | publish (link : String)
  | ledgerCommit (link : String)
  | cleanup
  deriving Repr, DecidableEq

/-- The external world one run sees: the connectivity-check outcome, the
aggregated fetch result, and the per-link collaborator outcomes. -/
structure RunEnv where
  connectivityOk : Bool
  fetched : List Article
  itemEnv : String → ItemEnv

/-- `NewsBot.process_article` (main.py:66-108): extract the image
(best-effort, its outcome never fails the item), then summarize (a `None`
summary fails the item before any publish), then publish; the result is the
publish result. -/
def process_article (e : ItemEnv) : Bool :=
  match e.summaryResult with
  | none => false
  | some _ => e.publishOk

/-- The calls `process_article` makes for one article. -/
def process_article_events (a : Article) (e : ItemEnv) : List Event :=
  match e.summaryResult with
  | none => [Event.imageExtract a.link, Event.summarize a.link]
  | some _ => [Event.imageExtract a.link, Event.summarize a.link, Event.publish a.link]

/-- The per-article loop of `NewsBot.run` (main.py:159-177): each article is
processed; only on success is `mark_processed` called, immediately after the
successful publish.  Returns the ledger, the processed/failed counters and
the emitted events. -/
def runItems (envOf : String → ItemEnv) :
    List Article → Database → Database × Nat × Nat × List Event
  | [], db => (db, 0, 0, [])
  | a :: rest, db =>
      let e := envOf a.link
      let evs := process_article_events a e
      if process_article e then
        let db1 := (mark_processed db a.link a.title a.source .ok).1
        let r := runItems envOf rest db1
        (r.1, r.2.1 + 1, r.2.2.1, evs ++ [Event.ledgerCommit a.link] ++ r.2.2.2)
      else
        let r := runItems envOf rest db
        (r.1, r.2.1, r.2.2.1 + 1, evs ++ r.2.2.2)

/-- Steps 3–4 of `NewsBot.run` (main.py:146-156): keep the articles whose
link the ledger does not know, then cap to the configured maximum. -/
def articles_to_process (db : Database) (env : RunEnv) (maxPerRun : Nat) :
    List Article :=
  (env.fetched.filter (fun a => !is_processed db a.link .ok)).take maxPerRun

/-- The error string recorded when the connectivity check fails. -/
def connectivityErrorMsg : String := "Telegram connection failed"

/-- `NewsBot.run` (main.py:110-198): connectivity check, fetch, filter, cap,
per-item loop, cleanup (always).  Returns the final ledger, the run
statistics and the event trace. -/
def run (maxPerRun : Nat) (db : Database) (env : RunEnv) :
    Database × RunStats × List Event :=
  if !env.connectivityOk then
    (db, ⟨0, 0, 0, 0, [connectivityErrorMsg]⟩, [Event.connectivityCheck, Event.cleanup])
  else
    if env.fetched.isEmpty then
      (db, ⟨env.fetched.length, 0, 0, 0, []⟩,
       [Event.connectivityCheck, Event.fetch, Event.cleanup])
    else
      let newArticles := env.fetched.filter (fun a => !is_processed db a.link .ok)
      let r := runItems env.itemEnv (newArticles.take maxPerRun) db
      (r.1, ⟨env.fetched.length, newArticles.length, r.2.1, r.2.2.1, []⟩,
       [Event.connectivityCheck, Event.fetch] ++ r.2.2.2 ++ [Event.cleanup])

/-- The ways `main` (main.py:226-259) can reach its exit decision: the
configuration loader raised `ValueError`; the run returned statistics; or an
unexpected exception escaped to the top-level handler. -/
inductive MainOutcome where
  | configError
  | ranOk (stats : RunStats)
  | crashed

/-- The process exit code `main` produces (main.py:244-259): 1 on a
configuration error or an unexpected exception, 1 when some article failed
and none succeeded, 0 otherwise. -/
def exitCode : MainOutcome → Nat
  | .configError => 1
  | .crashed => 1
  | .ranOk s => if 0 < s.articles_failed && s.articles_processed == 0 then 1 else 0

/-! ## Concrete inputs used to settle individual claims -/

/-- An empty ledger. -/
def emptyDb : Database := { records := [], clock := 1000000 }

/-- A sample fetched article. -/
def sampleArticle : Article :=
  { title := "Story one", link := "https://news.example/one",
    summary := "s", content := "c", published := 100,
    author := "", source := "TechCrunch", source_icon := "x" }

/-- A run in which the one item's image resolution finds nothing, while
summarization and publish succeed. -/
def noImageEnv : RunEnv :=
  { connectivityOk := true
    fetched := [sampleArticle]
    itemEnv := fun _ =>
      { imageResult := none, summaryResult := some "summary text", publishOk := true } }

/-- A run whose connectivity check fails. -/
def connFailEnv : RunEnv :=
  { connectivityOk := false
    fetched := [sampleArticle]
    itemEnv := fun _ =>
      { imageResult := none, summaryResult := some "summary text", publishOk := true } }

/-- A page whose `og:image` candidate (`http://e.c/a`) fails the validity
heuristic while a later `twitter:image` candidate is valid. -/
def mixedMetaHtml : String :=
  "<meta property=\"og:image\" content=\"http://e.c/a\"/><meta name=\"twitter:image\" content=\"https://example.com/pic.jpg\"/>"

/-! ## Predicates used to state the cleaning claims -/

/-- No two adjacent whitespace characters. -/
def noAdjacentWs : List Char → Bool
  | [] => true
  | [_] => true
  | a :: b :: rest => !(pyIsSpace a && pyIsSpace b) && noAdjacentWs (b :: rest)

/-- The first character, if any, is not whitespace. -/
def headNotWs (l : List Char) : Bool :=
  match l.head? with
  | none => true
  | some c => !pyIsSpace c

/-- The last character, if any, is not whitespace. -/
def lastNotWs (l : List Char) : Bool :=
  match l.getLast? with
  | none => true
  | some c => !pyIsSpace c

/-- Every whitespace run collapsed to a single character and no leading or
trailing whitespace — what the claim asserts of cleaned text. -/
def wellCollapsed (s : String) : Bool :=
  noAdjacentWs s.data && headNotWs s.data && lastNotWs s.data

/-! ## Theorems -/

/-- C5: `record` (i.e. `mark_processed`) returns `true` iff a new record was
inserted: with a fresh link the row is appended and the call reports `true`;
with an already-recorded link the store is untouched and the call reports
`false` rather than raising.  Uniqueness comes from the store's
insert-or-ignore step itself, whose result (`rowcount`) is the only thing
the return value consults. -/
theorem c5_record_insert_or_ignore (db : Database) (link title source : String) :
    ((mark_processed db link title source .ok).2 = true ↔ containsLink db link = false)
    ∧ (containsLink db link = true →
        mark_processed db link title source .ok = (db, false))
    ∧ (containsLink db link = false →
        (mark_processed db link title source .ok).1.records
          = db.records ++ [⟨link, title, source, db.clock⟩]) := by
  cases h : containsLink db link <;>
    simp [mark_processed, insertOrIgnore, h]

/-- C5 witness: inserting into the empty ledger reports `true`. -/
theorem c5_record_insert_or_ignore_witness :
    (mark_processed emptyDb "https://a.example/x" "t" "s" .ok).2 = true :=
  (c5_record_insert_or_ignore emptyDb "https://a.example/x" "t" "s").1.mpr (by decide)

/-- C10: on a storage failure no public ledger operation propagates the
error: `is_processed` answers `False` (even for a link that actually is
ledgered, weakening the dedup guarantee), `mark_processed` answers `False`
leaving the store unchanged, `get_stats` answers the zeroed dictionary, and
`cleanup_old` answers `0` leaving the store unchanged. -/
theorem c10_storage_error_defaults (db : Database) (link title source : String)
    (days : Nat) :
    is_processed db link .fail = false
    ∧ mark_processed db link title source .fail = (db, false)
    ∧ get_stats db .fail = ⟨0, none, [], 0⟩
    ∧ cleanup_old db days .fail = (db, 0)
    ∧ (containsLink db link = true →
        is_processed db link .ok = true ∧ is_processed db link .fail = false) := by
  refine ⟨rfl, rfl, rfl, rfl, fun h => ⟨?_, rfl⟩⟩
  simpa [is_processed] using h

/-- C10 witness: a concrete ledgered link is reported unknown under a
storage failure. -/
theorem c10_storage_error_defaults_witness :
    is_processed { records := [⟨"l1234567890", "t", "s", 0⟩], clock := 0 } "l1234567890" .fail
      = false :=
  (c10_storage_error_defaults { records := [⟨"l1234567890", "t", "s", 0⟩], clock := 0 }
    "l1234567890" "t" "s" 30).1

/-- C2: when an image URL is present and the image+caption attempt fails,
`post` unconditionally falls back to text-only delivery of the original
(un-caption-capped) text, and its overall result is exactly the fallback's
result: `post` reports `false` only when the text fallback also failed, and
a failed image attempt followed by a successful text fallback reports
`true`. -/
theorem c2_post_text_fallback (text img : String) (e : SendEnv) :
    ((post text (some img) e).1 = false → e.photoOk = false ∧ e.textOk = false)
    ∧ (e.photoOk = false →
        post text (some img) e
          = (e.textOk, [Delivery.photo img (caption_for text),
                        Delivery.message (message_for text)]))
    ∧ (e.photoOk = false → e.textOk = true → (post text (some img) e).1 = true) := by
  cases hp : e.photoOk <;> cases ht : e.textOk <;>
    simp [post, hp, ht]

/-- C2 witness: failed photo attempt, successful text fallback, overall
success on a concrete send. -/
theorem c2_post_text_fallback_witness :
    (post "hello" (some "https://img.example/i.jpg") ⟨false, true⟩).1 = true :=
  (c2_post_text_fallback "hello" "https://img.example/i.jpg" ⟨false, true⟩).2.2 rfl rfl

/-- C8: when the connectivity check fails, the run records the failure in
the statistics' error list, reports zero items found, performs no fetch and
no publish, leaves the ledger untouched, and still runs cleanup. -/
theorem c8_connectivity_failure_no_fetch (maxPerRun : Nat) (db : Database)
    (env : RunEnv) (h : env.connectivityOk = false) :
    (run maxPerRun db env).1 = db
    ∧ (run maxPerRun db env).2.1.articles_found = 0
    ∧ (run maxPerRun db env).2.1.errors ≠ []
    ∧ Event.fetch ∉ (run maxPerRun db env).2.2
    ∧ (∀ l, Event.publish l ∉ (run maxPerRun db env).2.2)
    ∧ Event.cleanup ∈ (run maxPerRun db env).2.2 := by
  simp [run, h]

/-- C8 witness: the connectivity-failure environment at the empty ledger. -/
theorem c8_connectivity_failure_no_fetch_witness :
    (run 5 emptyDb connFailEnv).2.1.articles_found = 0 :=
  (c8_connectivity_failure_no_fetch 5 emptyDb connFailEnv rfl).2.1

/-- C7 counterexample: a run that ends early on a connectivity failure has a
non-empty error list but zero attempted items, so `main` exits with code 0 —
the exit code does not reflect the connectivity failure. -/
theorem c7_connectivity_failure_exits_zero :
    (run 5 emptyDb connFailEnv).2.1.errors ≠ []
    ∧ exitCode (MainOutcome.ranOk (run 5 emptyDb connFailEnv).2.1) = 0 := by
  decide

/-- C7 (amended): the process exits 0 on any run with at least one
successfully processed item or with no failed items (in particular with no
eligible new items), and exits non-zero exactly when configuration loading
failed, an unexpected top-level error occurred, or at least one item failed
while none succeeded; a run that ends early on a connectivity failure
attempts no items and therefore exits 0. -/
theorem c7_exit_code :
    exitCode MainOutcome.configError = 1
    ∧ exitCode MainOutcome.crashed = 1
    ∧ (∀ s : RunStats,
        exitCode (MainOutcome.ranOk s) = 0
          ↔ (s.articles_failed = 0 ∨ 0 < s.articles_processed))
    ∧ (∀ s : RunStats, 0 < s.articles_failed → s.articles_processed = 0 →
        exitCode (MainOutcome.ranOk s) = 1)
    ∧ (∀ (maxPerRun : Nat) (db : Database) (env : RunEnv),
        env.connectivityOk = false →
        exitCode (MainOutcome.ranOk (run maxPerRun db env).2.1) = 0) := by
  refine ⟨rfl, rfl, fun s => ?_, fun s h1 h2 => ?_, fun maxPerRun db env h => ?_⟩
  · by_cases hf : s.articles_failed = 0
    · simp [exitCode, hf]
    · by_cases hp : s.articles_processed = 0
      · simp [exitCode, hf, hp, Nat.pos_of_ne_zero hf]
      · simp [exitCode, hp, Nat.pos_of_ne_zero hp]
  · simp [exitCode, h1, h2]
  · simp [run, exitCode, h]

/-- C7 witness: the exit-code rule applied at a concrete all-failed run and
at a concrete connectivity-failure run. -/
theorem c7_exit_code_witness :
    exitCode (MainOutcome.ranOk ⟨3, 2, 0, 2, []⟩) = 1
    ∧ exitCode (MainOutcome.ranOk (run 5 emptyDb connFailEnv).2.1) = 0 :=
  ⟨c7_exit_code.2.2.2.1 ⟨3, 2, 0, 2, []⟩ (by decide) rfl,
   c7_exit_code.2.2.2.2 5 emptyDb connFailEnv rfl⟩

/-- C6: the caption sent with an image is the text truncated to exactly 1024
characters when it exceeds that limit, and the text unmodified otherwise;
text-only delivery sends the text unmodified at or under 4096 characters and
otherwise sends the first 4000 characters plus the truncation marker, which
keeps the sent message within 4096 characters. -/
theorem c6_length_caps (text : String) :
    (text.length ≤ 1024 → caption_for text = text)
    ∧ (1024 < text.length →
        caption_for text = String.mk (text.data.take 1024)
        ∧ (caption_for text).length = 1024)
    ∧ (text.length ≤ 4096 → message_for text = text)
    ∧ (4096 < text.length →
        message_for text = String.mk (text.data.take 4000 ++ truncMarker.data)
        ∧ (message_for text).length ≤ 4096) := by
  have hlen : text.length = text.data.length := rfl
  refine ⟨fun h => ?_, fun h => ⟨by simp [caption_for, h], ?_⟩,
          fun h => ?_, fun h => ⟨by simp [message_for, h], ?_⟩⟩
  · simp [caption_for, Nat.not_lt.mpr h]
  · have hc : caption_for text = String.mk (text.data.take 1024) := by
      simp [caption_for, h]
    rw [hc]
    show (text.data.take 1024).length = 1024
    rw [List.length_take]
    rw [hlen] at h
    omega
  · simp [message_for, Nat.not_lt.mpr h]
  · have hm : message_for text = String.mk (text.data.take 4000 ++ truncMarker.data) := by
      simp [message_for, h]
    rw [hm]
    show (text.data.take 4000 ++ truncMarker.data).length ≤ 4096
    rw [List.length_append, List.length_take]
    have hmk : truncMarker.data.length = 33 := by decide
    rw [hmk]
    omega

/-- C6 witness: a short text passes through unmodified; a 2000-character
text's caption is cut to exactly 1024 characters. -/
theorem c6_length_caps_witness :
    caption_for "short" = "short"
    ∧ (caption_for (String.mk (List.replicate 2000 'a'))).length = 1024 :=
  ⟨(c6_length_caps "short").1 (by decide),
   ((c6_length_caps (String.mk (List.replicate 2000 'a'))).2.1
      (by show 1024 < (List.replicate 2000 'a').length
          rw [List.length_replicate]; omega)).2⟩

/-- Marking one link leaves exactly the old links plus that link. -/
theorem insertOrIgnore_of_contains (db : Database) (l t s : String)
    (h : containsLink db l = true) : insertOrIgnore db l t s = (db, 0) := by
  unfold insertOrIgnore
  rw [if_pos h]

theorem insertOrIgnore_of_fresh (db : Database) (l t s : String)
    (h : containsLink db l = false) :
    insertOrIgnore db l t s
      = ({ db with records := db.records ++ [(⟨l, t, s, db.clock⟩ : LedgerRecord)] }, 1) := by
  unfold insertOrIgnore
  rw [if_neg]
  simp [h]

theorem containsLink_mark (db : Database) (l t s x : String) :
    containsLink ((mark_processed db l t s .ok).1) x
      = (containsLink db x || l == x) := by
  cases h : containsLink db l with
  | false =>
      have hins : (mark_processed db l t s .ok).1
          = { db with records := db.records ++ [(⟨l, t, s, db.clock⟩ : LedgerRecord)] } := by
        show (insertOrIgnore db l t s).1 = _
        rw [insertOrIgnore_of_fresh db l t s h]
      rw [hins]
      show (db.records ++ [(⟨l, t, s, db.clock⟩ : LedgerRecord)]).any (fun r => r.link == x)
        = (containsLink db x || l == x)
      rw [List.any_append]
      simp [containsLink]
  | true =>
      have hins : (mark_processed db l t s .ok).1 = db := by
        show (insertOrIgnore db l t s).1 = _
        rw [insertOrIgnore_of_contains db l t s h]
      rw [hins]
      by_cases hlx : l = x
      · subst hlx
        rw [h]
        simp
      · rw [show (l == x) = false from by simp [hlx]]
        simp

/-- `process_article` succeeds exactly when summarization produced a summary
and the publish call succeeded. -/
theorem process_article_eq_true (e : ItemEnv) :
    process_article e = true ↔ (e.summaryResult.isSome = true ∧ e.publishOk = true) := by
  cases hs : e.summaryResult <;> simp [process_article, hs]

/-- The per-item call trace never contains a ledger-commit event. -/
theorem commit_not_in_item_events (a : Article) (e : ItemEnv) (link : String) :
    Event.ledgerCommit link ∉ process_article_events a e := by
  cases hs : e.summaryResult <;> simp [process_article_events, hs]

/-- A publish event appears in the per-item trace exactly for this item's
link and only when a summary was produced. -/
theorem publish_in_item_events (a : Article) (e : ItemEnv) (link : String) :
    Event.publish link ∈ process_article_events a e
      ↔ (a.link = link ∧ e.summaryResult.isSome = true) := by
  cases hs : e.summaryResult <;> simp [process_article_events, hs, eq_comm]

/-- Ledger contents after the item loop: a link is known afterwards iff it
was known before or some processed item with that link published
successfully. -/
theorem runItems_contains (envOf : String → ItemEnv) (items : List Article)
    (db : Database) (link : String) :
    containsLink (runItems envOf items db).1 link
      = (containsLink db link
         || items.any (fun a => a.link == link && process_article (envOf a.link))) := by
  induction items generalizing db with
  | nil => simp [runItems]
  | cons a rest ih =>
      cases h : process_article (envOf a.link)
      · simp [runItems, h, ih]
      · simp [runItems, h, ih, containsLink_mark, Bool.or_assoc]

/-- Commit events of the item loop: one exactly for each successfully
published item. -/
theorem runItems_commit_mem (envOf : String → ItemEnv) (items : List Article)
    (db : Database) (link : String) :
    Event.ledgerCommit link ∈ (runItems envOf items db).2.2.2
      ↔ ∃ a, a ∈ items ∧ a.link = link ∧ process_article (envOf a.link) = true := by
  induction items generalizing db with
  | nil => simp [runItems]
  | cons a rest ih =>
      cases h : process_article (envOf a.link)
      · simp [runItems, h, ih, commit_not_in_item_events]
      · simp [runItems, h, ih, commit_not_in_item_events]
        exact or_congr eq_comm Iff.rfl

/-- Publish events of the item loop: one exactly for each item whose
summarization succeeded. -/
theorem runItems_publish_mem (envOf : String → ItemEnv) (items : List Article)
    (db : Database) (link : String) :
    Event.publish link ∈ (runItems envOf items db).2.2.2
      ↔ ∃ a, a ∈ items ∧ a.link = link
             ∧ (envOf a.link).summaryResult.isSome = true := by
  induction items generalizing db with
  | nil => simp [runItems]
  | cons a rest ih =>
      cases h : process_article (envOf a.link) <;>
        simp [runItems, h, ih, publish_in_item_events, List.mem_append]

/-- C1 counterexample: an item whose image resolution failed (the resolver
returned no image) but whose summarization and publish succeeded *is*
committed to the ledger — so "never for an item whose image resolution
failed" does not hold of the code. -/
theorem c1_image_failure_still_ledgered :
    (noImageEnv.itemEnv sampleArticle.link).imageResult = none
    ∧ containsLink emptyDb sampleArticle.link = false
    ∧ containsLink (run 5 emptyDb noImageEnv).1 sampleArticle.link = true := by
  decide

/-- C1 (amended): in a run whose connectivity check passed, a link is
committed to the ledger exactly when it was already there or one of the
processed items with that link was successfully published (summary produced
and `post` returned `true`); a commit event occurs only for successfully
published items, and never without a publish call for that link having
returned success.  Failure of image resolution alone does not fail an item
and does not block its ledger commit. -/
theorem c1_ledger_commit_iff_publish (maxPerRun : Nat) (db : Database)
    (env : RunEnv) (link : String) (hconn : env.connectivityOk = true) :
    (containsLink (run maxPerRun db env).1 link
      = (containsLink db link
         || (articles_to_process db env maxPerRun).any
              (fun a => a.link == link && process_article (env.itemEnv a.link))))
    ∧ (Event.ledgerCommit link ∈ (run maxPerRun db env).2.2
        ↔ ∃ a, a ∈ articles_to_process db env maxPerRun ∧ a.link = link
               ∧ process_article (env.itemEnv a.link) = true)
    ∧ (Event.ledgerCommit link ∈ (run maxPerRun db env).2.2
        → Event.publish link ∈ (run maxPerRun db env).2.2
          ∧ (env.itemEnv link).publishOk = true) := by
  cases hfe : env.fetched.isEmpty
  · have hrun : run maxPerRun db env
        = (let newArticles := env.fetched.filter (fun a => !is_processed db a.link .ok)
           let r := runItems env.itemEnv (newArticles.take maxPerRun) db
           (r.1, ⟨env.fetched.length, newArticles.length, r.2.1, r.2.2.1, []⟩,
            [Event.connectivityCheck, Event.fetch] ++ r.2.2.2 ++ [Event.cleanup])) := by
      simp [run, hconn, hfe]
    rw [hrun]
    refine ⟨?_, ?_, ?_⟩
    · simpa [articles_to_process] using
        runItems_contains env.itemEnv
          ((env.fetched.filter (fun a => !is_processed db a.link .ok)).take maxPerRun)
          db link
    · simp [articles_to_process, runItems_commit_mem]
    · intro hc
      simp only [List.mem_append, List.mem_cons] at hc
      rcases hc with ((hc | hc) | hc) | hc
      · exact absurd hc (by simp)
      · exact absurd hc (by simp)
      · rcases (runItems_commit_mem env.itemEnv _ db link).mp hc
          with ⟨a, hmem, hlink, hpub⟩
        have hsum := (process_article_eq_true (env.itemEnv a.link)).mp hpub
        constructor
        · have : Event.publish link ∈
              (runItems env.itemEnv
                ((env.fetched.filter (fun a => !is_processed db a.link .ok)).take maxPerRun)
                db).2.2.2 :=
            (runItems_publish_mem env.itemEnv _ db link).mpr ⟨a, hmem, hlink, hsum.1⟩
          simp [this]
        · rw [← hlink]
          exact hsum.2
      · exact absurd hc (by simp)
  · have hnil : env.fetched = [] := by
      simpa using hfe
    have hrun : run maxPerRun db env
        = (db, ⟨env.fetched.length, 0, 0, 0, []⟩,
           [Event.connectivityCheck, Event.fetch, Event.cleanup]) := by
      simp [run, hconn, hfe]
    rw [hrun]
    simp [articles_to_process, hnil]

/-- C1 witness: the amended characterization at the no-image run on the
empty ledger. -/
theorem c1_ledger_commit_iff_publish_witness :
    containsLink (run 5 emptyDb noImageEnv).1 sampleArticle.link
      = (containsLink emptyDb sampleArticle.link
         || (articles_to_process emptyDb noImageEnv 5).any
              (fun a => a.link == sampleArticle.link
                        && process_article (noImageEnv.itemEnv a.link))) :=
  (c1_ledger_commit_iff_publish 5 emptyDb noImageEnv sampleArticle.link rfl).1

/-- The pattern loop returns `some u` exactly when some pattern's
absolutized candidate is `u`, `u` passes validation, and every earlier
pattern either did not match or produced a candidate that failed
validation. -/
theorem firstValid_iff (pageUrl html u : String) : ∀ ps : List (List Tok),
    firstValidCandidate pageUrl html ps = some u
    ↔ ∃ ps₁ p ps₂, ps = ps₁ ++ p :: ps₂
        ∧ candidateOf pageUrl html p = some u
        ∧ is_valid_image_url u = true
        ∧ ∀ q ∈ ps₁, ∀ v, candidateOf pageUrl html q = some v →
            is_valid_image_url v = false := by
  intro ps
  induction ps with
  | nil =>
      constructor
      · intro h
        simp [firstValidCandidate] at h
      · rintro ⟨ps₁, p, ps₂, heq, -⟩
        cases ps₁ <;> simp at heq
  | cons p ps ih =>
      cases hc : candidateOf pageUrl html p with
      | none =>
          rw [show firstValidCandidate pageUrl html (p :: ps)
                = firstValidCandidate pageUrl html ps from by
              simp [firstValidCandidate, hc]]
          rw [ih]
          constructor
          · rintro ⟨ps₁, q, ps₂, heq, hq, hvu, hprev⟩
            refine ⟨p :: ps₁, q, ps₂, by rw [heq, List.cons_append], hq, hvu, ?_⟩
            intro r hr v hrv
            rcases List.mem_cons.mp hr with hrp | hr1
            · rw [hrp] at hrv
              rw [hc] at hrv
              cases hrv
            · exact hprev r hr1 v hrv
          · rintro ⟨ps₁, q, ps₂, heq, hq, hvu, hprev⟩
            cases ps₁ with
            | nil =>
                simp only [List.nil_append] at heq
                have hpq : p = q := (List.cons_eq_cons.mp heq).1
                rw [← hpq] at hq
                rw [hc] at hq
                cases hq
            | cons r ps₁' =>
                simp only [List.cons_append, List.cons_eq_cons] at heq
                refine ⟨ps₁', q, ps₂, heq.2, hq, hvu, ?_⟩
                intro r' hr' v hrv
                exact hprev r' (List.mem_cons_of_mem r hr') v hrv
      | some c =>
          cases hv : is_valid_image_url c with
          | true =>
              rw [show firstValidCandidate pageUrl html (p :: ps) = some c from by
                  simp [firstValidCandidate, hc, hv]]
              constructor
              · intro h
                have hcu : c = u := by
                  injection h
                refine ⟨[], p, ps, rfl, ?_, by rw [← hcu]; exact hv, by simp⟩
                rw [hc, hcu]
              · rintro ⟨ps₁, q, ps₂, heq, hq, hvu, hprev⟩
                cases ps₁ with
                | nil =>
                    simp only [List.nil_append] at heq
                    have hpq : p = q := (List.cons_eq_cons.mp heq).1
                    rw [← hpq] at hq
                    rw [hc] at hq
                    injection hq with hq1
                    rw [hq1]
                | cons r ps₁' =>
                    simp only [List.cons_append, List.cons_eq_cons] at heq
                    have hpr : p = r := heq.1
                    have : is_valid_image_url c = false :=
                      hprev r (List.mem_cons_self r ps₁') c (by rw [← hpr]; exact hc)
                    rw [hv] at this
                    cases this
          | false =>
              rw [show firstValidCandidate pageUrl html (p :: ps)
                    = firstValidCandidate pageUrl html ps from by
                  simp [firstValidCandidate, hc, hv]]
              rw [ih]
              constructor
              · rintro ⟨ps₁, q, ps₂, heq, hq, hvu, hprev⟩
                refine ⟨p :: ps₁, q, ps₂, by rw [heq, List.cons_append], hq, hvu, ?_⟩
                intro r hr v hrv
                rcases List.mem_cons.mp hr with hrp | hr1
                · rw [hrp] at hrv
                  rw [hc] at hrv
                  injection hrv with hrv1
                  rw [← hrv1]
                  exact hv
                · exact hprev r hr1 v hrv
              · rintro ⟨ps₁, q, ps₂, heq, hq, hvu, hprev⟩
                cases ps₁ with
                | nil =>
                    simp only [List.nil_append] at heq
                    have hpq : p = q := (List.cons_eq_cons.mp heq).1
                    rw [← hpq] at hq
                    rw [hc] at hq
                    injection hq with hq1
                    rw [← hq1] at hvu
                    rw [hv] at hvu
                    cases hvu
                | cons r ps₁' =>
                    simp only [List.cons_append, List.cons_eq_cons] at heq
                    refine ⟨ps₁', q, ps₂, heq.2, hq, hvu, ?_⟩
                    intro r' hr' v hrv
                    exact hprev r' (List.mem_cons_of_mem r hr') v hrv

/-- C4 counterexample: on a page where the first pattern (`og:image`)
matches but its candidate fails validation, `extract` does not stop — it
returns the valid candidate of a later (`twitter:image`) pattern, so "the
first match wins with no further candidates considered" and "a candidate
failing validation means no image" are both false of the code. -/
theorem c4_invalid_first_match_not_final :
    candidateOf "https://news.example/story" mixedMetaHtml ogPattern1
      = some "http://e.c/a"
    ∧ is_valid_image_url "http://e.c/a" = false
    ∧ extract "https://news.example/story" (FetchOutcome.success mixedMetaHtml)
        = some "https://example.com/pic.jpg" := by
  decide

/-- C4 (amended): `extract` searches the patterns in priority order
(`og:image` variants before `twitter:image` variants) and returns the first
pattern's absolutized candidate that passes the validity heuristic —
patterns whose candidate fails validation are skipped and later patterns
are still considered; it returns no image when no pattern produces a valid
candidate, and on any HTTP error, timeout or other I/O failure, without
raising. -/
theorem c4_extract_first_valid (pageUrl html u : String) :
    (extract pageUrl FetchOutcome.httpStatusError = none
     ∧ extract pageUrl FetchOutcome.timeoutError = none
     ∧ extract pageUrl FetchOutcome.otherError = none)
    ∧ (extract pageUrl (FetchOutcome.success html) = some u
        ↔ ∃ ps₁ p ps₂, OG_IMAGE_PATTERNS = ps₁ ++ p :: ps₂
            ∧ candidateOf pageUrl html p = some u
            ∧ is_valid_image_url u = true
            ∧ ∀ q ∈ ps₁, ∀ v, candidateOf pageUrl html q = some v →
                is_valid_image_url v = false)
    ∧ ((∀ p ∈ OG_IMAGE_PATTERNS, searchToks p html.data = none) →
        extract pageUrl (FetchOutcome.success html) = none) := by
  refine ⟨⟨rfl, rfl, rfl⟩, ?_, ?_⟩
  · exact firstValid_iff pageUrl html u OG_IMAGE_PATTERNS
  · intro hall
    cases hx : extract pageUrl (FetchOutcome.success html) with
    | none => rfl
    | some w =>
        have := (firstValid_iff pageUrl html w OG_IMAGE_PATTERNS).mp hx
        rcases this with ⟨ps₁, p, ps₂, heq, hq, -, -⟩
        have hp : p ∈ OG_IMAGE_PATTERNS := by
          rw [heq]
          exact List.mem_append_right ps₁ (List.mem_cons_self p ps₂)
        have hnone : searchToks p html.data = none := hall p hp
        rw [candidateOf, hnone] at hq
        cases hq

/-- C4 witness: on a page with no meta tags every pattern misses and
`extract` reports no image. -/
theorem c4_extract_first_valid_witness :
    extract "https://p.example/" (FetchOutcome.success "plain text") = none :=
  (c4_extract_first_valid "https://p.example/" "plain text" "u").2.2 (by decide)

/-- The adjacency check only looks at the tail after the head pair. -/
theorem noAdj_tail (a : Char) (l : List Char)
    (h : noAdjacentWs (a :: l) = true) : noAdjacentWs l = true := by
  cases l with
  | nil => rfl
  | cons b t =>
      have := (Bool.and_eq_true _ _).mp h
      exact this.2

/-- A non-whitespace head never creates an adjacent pair. -/
theorem noAdj_cons_of (a : Char) (l : List Char) (ha : pyIsSpace a = false)
    (hl : noAdjacentWs l = true) : noAdjacentWs (a :: l) = true := by
  cases l with
  | nil => rfl
  | cons b t => simp [noAdjacentWs, ha, hl]

/-- A space head is fine when the tail does not start with whitespace. -/
theorem noAdj_cons_space (l : List Char) (hh : headNotWs l = true)
    (hl : noAdjacentWs l = true) : noAdjacentWs (' ' :: l) = true := by
  cases l with
  | nil => rfl
  | cons b t =>
      have hb : pyIsSpace b = false := by
        simpa [headNotWs] using hh
      simp [noAdjacentWs, hb, hl]

/-- The collapse pass produces no adjacent whitespace, and with the
in-run flag set it cannot start with whitespace. -/
theorem collapseWs_noAdj : ∀ l : List Char,
    noAdjacentWs (collapseWs false l) = true
    ∧ noAdjacentWs (collapseWs true l) = true
    ∧ headNotWs (collapseWs true l) = true := by
  intro l
  induction l with
  | nil => exact ⟨rfl, rfl, rfl⟩
  | cons c rest ih =>
      cases hsp : pyIsSpace c with
      | false =>
          have h1 : collapseWs false (c :: rest) = c :: collapseWs false rest := by
            simp [collapseWs, hsp]
          have h2 : collapseWs true (c :: rest) = c :: collapseWs false rest := by
            simp [collapseWs, hsp]
          refine ⟨?_, ?_, ?_⟩
          · rw [h1]; exact noAdj_cons_of c _ hsp ih.1
          · rw [h2]; exact noAdj_cons_of c _ hsp ih.1
          · rw [h2]; simp [headNotWs, hsp]
      | true =>
          have h1 : collapseWs false (c :: rest) = ' ' :: collapseWs true rest := by
            simp [collapseWs, hsp]
          have h2 : collapseWs true (c :: rest) = collapseWs true rest := by
            simp [collapseWs, hsp]
          refine ⟨?_, ?_, ?_⟩
          · rw [h1]; exact noAdj_cons_space _ ih.2.2 ih.2.1
          · rw [h2]; exact ih.2.1
          · rw [h2]; exact ih.2.2

/-- Dropping a prefix preserves the no-adjacent-whitespace property. -/
theorem noAdj_dropWhile (p : Char → Bool) : ∀ l : List Char,
    noAdjacentWs l = true → noAdjacentWs (l.dropWhile p) = true := by
  intro l
  induction l with
  | nil => intro h; exact h
  | cons c rest ih =>
      intro h
      cases hc : p c with
      | true =>
          rw [List.dropWhile_cons_of_pos hc]
          exact ih (noAdj_tail c rest h)
      | false =>
          rw [List.dropWhile_cons_of_neg (by simp [hc])]
          exact h

/-- After dropping leading whitespace the head is not whitespace. -/
theorem headNotWs_dropWhile : ∀ l : List Char,
    headNotWs (l.dropWhile pyIsSpace) = true := by
  intro l
  induction l with
  | nil => rfl
  | cons c rest ih =>
      cases hc : pyIsSpace c with
      | true =>
          rw [List.dropWhile_cons_of_pos hc]
          exact ih
      | false =>
          rw [List.dropWhile_cons_of_neg (by simp [hc])]
          simp [headNotWs, hc]

/-- `dropTrailingWs` is empty or preserves the head. -/
theorem dropTrailingWs_head : ∀ l : List Char,
    dropTrailingWs l = [] ∨ (dropTrailingWs l).head? = l.head? := by
  intro l
  induction l with
  | nil => exact Or.inl rfl
  | cons c rest ih =>
      cases hd : dropTrailingWs rest with
      | nil =>
          cases hsp : pyIsSpace c with
          | true => exact Or.inl (by simp [dropTrailingWs, hd, hsp])
          | false =>
              refine Or.inr ?_
              simp [dropTrailingWs, hd, hsp]
      | cons d t =>
          refine Or.inr ?_
          simp [dropTrailingWs, hd]

/-- Removing trailing whitespace preserves the no-adjacent property. -/
theorem noAdj_dropTrailingWs : ∀ l : List Char,
    noAdjacentWs l = true → noAdjacentWs (dropTrailingWs l) = true := by
  intro l
  induction l with
  | nil => intro h; exact h
  | cons c rest ih =>
      intro h
      cases hd : dropTrailingWs rest with
      | nil =>
          cases hsp : pyIsSpace c with
          | true => simp [dropTrailingWs, hd, hsp, noAdjacentWs]
          | false => simp [dropTrailingWs, hd, hsp, noAdjacentWs]
      | cons d t =>
          have hres : dropTrailingWs (c :: rest) = c :: d :: t := by
            simp [dropTrailingWs, hd]
          rw [hres]
          rcases dropTrailingWs_head rest with hnil | hhead
          · rw [hnil] at hd; cases hd
          · rw [hd] at hhead
            cases rest with
            | nil => simp at hhead
            | cons e rest' =>
                have hde : d = e := by
                  simpa using hhead
                have hpair : (!(pyIsSpace c && pyIsSpace e)) = true :=
                  ((Bool.and_eq_true _ _).mp h).1
                have htail : noAdjacentWs (d :: t) = true := by
                  rw [← hd]
                  exact ih (noAdj_tail c _ h)
                rw [hde] at htail
                show (!(pyIsSpace c && pyIsSpace d) && noAdjacentWs (d :: t)) = true
                rw [hde, htail, Bool.and_true]
                exact hpair

/-- After removing trailing whitespace the last character is not
whitespace. -/
theorem lastNotWs_dropTrailingWs : ∀ l : List Char,
    lastNotWs (dropTrailingWs l) = true := by
  intro l
  induction l with
  | nil => rfl
  | cons c rest ih =>
      cases hd : dropTrailingWs rest with
      | nil =>
          cases hsp : pyIsSpace c with
          | true => simp [dropTrailingWs, hd, hsp, lastNotWs]
          | false => simp [dropTrailingWs, hd, hsp, lastNotWs, hsp]
      | cons d t =>
          have hres : dropTrailingWs (c :: rest) = c :: d :: t := by
            simp [dropTrailingWs, hd]
          rw [hres]
          have : lastNotWs (c :: d :: t) = lastNotWs (d :: t) := by
            simp [lastNotWs, List.getLast?_cons_cons]
          rw [this, ← hd]
          exact ih

/-- The collapse-and-strip stage of `_clean_html` leaves text with single
internal spaces and no leading or trailing whitespace. -/
theorem stripEnds_collapseWs_wellCollapsed (l : List Char) :
    wellCollapsed (String.mk (stripEnds (collapseWs false l))) = true := by
  have h1 : noAdjacentWs (collapseWs false l) = true := (collapseWs_noAdj l).1
  have h2 : noAdjacentWs ((collapseWs false l).dropWhile pyIsSpace) = true :=
    noAdj_dropWhile pyIsSpace _ h1
  have h3 : noAdjacentWs (stripEnds (collapseWs false l)) = true :=
    noAdj_dropTrailingWs _ h2
  have h4 : headNotWs (stripEnds (collapseWs false l)) = true := by
    rcases dropTrailingWs_head ((collapseWs false l).dropWhile pyIsSpace) with hnil | hhead
    · rw [stripEnds, hnil]; rfl
    · rw [stripEnds]
      unfold headNotWs
      rw [hhead]
      have := headNotWs_dropWhile (collapseWs false l)
      unfold headNotWs at this
      exact this
  have h5 : lastNotWs (stripEnds (collapseWs false l)) = true :=
    lastNotWs_dropTrailingWs _
  show (noAdjacentWs (stripEnds (collapseWs false l))
        && headNotWs (stripEnds (collapseWs false l))
        && lastNotWs (stripEnds (collapseWs false l))) = true
  rw [h3, h4, h5]
  rfl

/-- C9 counterexample: entity decoding runs *after* whitespace
collapsing, so `&nbsp;` sequences decode into adjacent spaces — the
returned text is not whitespace-collapsed, contradicting "collapses every
whitespace run to a single space". -/
theorem c9_nbsp_reintroduces_whitespace :
    clean_html "a&nbsp;&nbsp;b" = "a  b"
    ∧ wellCollapsed (clean_html "a&nbsp;&nbsp;b") = false := by
  decide

/-- C9 (amended): the cleaning strips markup tags, then collapses
whitespace runs to single spaces with no leading or trailing whitespace —
a property that holds of the intermediate stage — and only then decodes the
fixed entity table (which can reintroduce adjacent or edge whitespace, e.g.
from `&nbsp;`) and caps the result at 2000 characters; the cleaning is
applied to every item's summary and body text when articles are built. -/
theorem c9_clean_html_stages (text : String) :
    (clean_html text).length ≤ 2000
    ∧ wellCollapsed
        (String.mk (stripEnds (collapseWs false (stripTags text.data none)))) = true
    ∧ (¬ text.isEmpty = true →
        clean_html text
          = String.mk ((decodeEntities
              (stripEnds (collapseWs false (stripTags text.data none)))).take 2000))
    ∧ (∀ (now : Nat) (name icon : String) (e : RawEntry),
        (toArticle now name icon e).summary = clean_html (e.summary.getD "")
        ∧ (toArticle now name icon e).content
            = clean_html (e.content.getD (e.summary.getD ""))) := by
  refine ⟨?_, stripEnds_collapseWs_wellCollapsed _, ?_, ?_⟩
  · cases he : text.isEmpty with
    | true =>
        have : clean_html text = "" := by
          simp [clean_html, he]
        rw [this]
        exact Nat.zero_le _
    | false =>
        have : clean_html text
            = String.mk ((decodeEntities
                (stripEnds (collapseWs false (stripTags text.data none)))).take 2000) := by
          simp [clean_html, he]
        rw [this]
        show ((decodeEntities
            (stripEnds (collapseWs false (stripTags text.data none)))).take 2000).length ≤ 2000
        rw [List.length_take]
        exact Nat.min_le_left _ _
  · intro he
    simp [clean_html, Bool.not_eq_true _ ▸ he]
  · intro now name icon e
    constructor
    · rfl
    · cases hc : e.content with
      | none => simp [toArticle, hc]
      | some c => simp [toArticle, hc]

/-- C9 witness: the staged description applied at a concrete markup
fragment. -/
theorem c9_clean_html_stages_witness :
    clean_html "<p>x</p>"
      = String.mk ((decodeEntities
          (stripEnds (collapseWs false (stripTags "<p>x</p>".data none)))).take 2000) :=
  (c9_clean_html_stages "<p>x</p>").2.2.1 (by decide)

/-- Stable insertion inserts the new article and keeps everything else. -/
theorem insertDesc_perm (a : Article) : ∀ l : List Article,
    (insertDesc a l).Perm (a :: l) := by
  intro l
  induction l with
  | nil => exact List.Perm.refl _
  | cons b rest ih =>
      by_cases hlt : b.published < a.published
      · simp [insertDesc, hlt]
      · rw [show insertDesc a (b :: rest) = b :: insertDesc a rest from by
          simp [insertDesc, hlt]]
        exact (ih.cons b).trans (List.Perm.swap a b rest)

/-- Stable insertion preserves descending order. -/
theorem insertDesc_pairwise (a : Article) : ∀ l : List Article,
    l.Pairwise (fun x y => y.published ≤ x.published) →
    (insertDesc a l).Pairwise (fun x y => y.published ≤ x.published) := by
  intro l
  induction l with
  | nil => intro _; simp [insertDesc]
  | cons b rest ih =>
      intro h
      rcases List.pairwise_cons.mp h with ⟨hb, hrest⟩
      by_cases hlt : b.published < a.published
      · rw [show insertDesc a (b :: rest) = a :: b :: rest from by
          simp [insertDesc, hlt]]
        refine List.pairwise_cons.mpr ⟨?_, h⟩
        intro x hx
        rcases List.mem_cons.mp hx with hxb | hxr
        · rw [hxb]; exact Nat.le_of_lt hlt
        · exact Nat.le_trans (hb x hxr) (Nat.le_of_lt hlt)
      · rw [show insertDesc a (b :: rest) = b :: insertDesc a rest from by
          simp [insertDesc, hlt]]
        refine List.pairwise_cons.mpr ⟨?_, ih hrest⟩
        intro x hx
        have hx' : x ∈ a :: rest := (insertDesc_perm a rest).subset hx
        rcases List.mem_cons.mp hx' with hxa | hxr
        · rw [hxa]; exact Nat.le_of_not_lt hlt
        · exact hb x hxr

/-- Under descending order, all elements of the list are below a strictly
smaller head's timestamp, so nothing equals a larger key. -/
theorem filter_key_nil (t : Nat) (b : Article) (rest : List Article)
    (h : (b :: rest).Pairwise (fun x y => y.published ≤ x.published))
    (hlt : b.published < t) :
    (b :: rest).filter (fun x => x.published == t) = [] := by
  rw [List.filter_eq_nil_iff]
  intro x hx
  have hxle : x.published ≤ b.published := by
    rcases List.mem_cons.mp hx with hxb | hxr
    · rw [hxb]
    · exact (List.pairwise_cons.mp h).1 x hxr
  simp only [beq_iff_eq]
  omega

/-- Stable insertion appends the new article at the end of its timestamp
class and leaves every other class untouched. -/
theorem insertDesc_filter (t : Nat) (a : Article) : ∀ l : List Article,
    l.Pairwise (fun x y => y.published ≤ x.published) →
    (insertDesc a l).filter (fun x => x.published == t)
      = (if a.published == t
         then l.filter (fun x => x.published == t) ++ [a]
         else l.filter (fun x => x.published == t)) := by
  intro l
  induction l with
  | nil =>
      intro _
      by_cases hat : a.published = t <;> simp [insertDesc, hat]
  | cons b rest ih =>
      intro h
      rcases List.pairwise_cons.mp h with ⟨hb, hrest⟩
      by_cases hlt : b.published < a.published
      · rw [show insertDesc a (b :: rest) = a :: b :: rest from by
          simp [insertDesc, hlt]]
        by_cases hat : a.published = t
        · have hnil : (b :: rest).filter (fun x => x.published == t) = [] :=
            filter_key_nil t b rest h (by omega)
          simp [hat, hnil]
        · simp [List.filter_cons, hat]
      · rw [show insertDesc a (b :: rest) = b :: insertDesc a rest from by
          simp [insertDesc, hlt]]
        rw [List.filter_cons, List.filter_cons]
        by_cases hbt : b.published = t <;>
          by_cases hat : a.published = t <;>
            simp [hbt, hat, ih hrest]

/-- Invariant of the insertion fold: the accumulator stays sorted, the
result is a permutation of accumulator-then-input, and each timestamp class
comes out as the accumulator's class followed by the input's class in input
order (stability). -/
theorem sortDesc_go : ∀ (l acc : List Article),
    acc.Pairwise (fun x y => y.published ≤ x.published) →
    (l.foldl (fun acc a => insertDesc a acc) acc).Pairwise
        (fun x y => y.published ≤ x.published)
    ∧ (l.foldl (fun acc a => insertDesc a acc) acc).Perm (acc ++ l)
    ∧ ∀ t, (l.foldl (fun acc a => insertDesc a acc) acc).filter
              (fun x => x.published == t)
        = acc.filter (fun x => x.published == t)
          ++ l.filter (fun x => x.published == t) := by
  intro l
  induction l with
  | nil =>
      intro acc hacc
      exact ⟨hacc, by simp, by simp⟩
  | cons a l ih =>
      intro acc hacc
      have hacc' := insertDesc_pairwise a acc hacc
      rcases ih (insertDesc a acc) hacc' with ⟨hp, hperm, hfil⟩
      refine ⟨by rw [List.foldl_cons]; exact hp, ?_, ?_⟩
      · rw [List.foldl_cons]
        have step2 : (insertDesc a acc ++ l).Perm ((a :: acc) ++ l) :=
          (insertDesc_perm a acc).append_right l
        have step3 : ((a :: acc) ++ l).Perm (acc ++ a :: l) := by
          rw [List.cons_append]
          exact List.perm_middle.symm
        exact hperm.trans (step2.trans step3)
      · intro t
        rw [List.foldl_cons, hfil t, insertDesc_filter t a acc hacc, List.filter_cons]
        by_cases hat : a.published = t <;> simp [hat]

/-- C3: `fetch_all` returns a permutation of the concatenation of the
per-source lists, sorted by published timestamp in descending order; each
timestamp class keeps its arrival (concatenation) order, and when all
timestamps are distinct the output is strictly descending. -/
theorem c3_fetch_all_order (perSource : List (List Article)) :
    (fetch_all perSource).Perm (perSource.foldl (fun acc r => acc ++ r) [])
    ∧ (fetch_all perSource).Pairwise (fun a b => b.published ≤ a.published)
    ∧ (∀ t, (fetch_all perSource).filter (fun x => x.published == t)
          = (perSource.foldl (fun acc r => acc ++ r) []).filter
              (fun x => x.published == t))
    ∧ (((perSource.foldl (fun acc r => acc ++ r) []).map (·.published)).Nodup →
        (fetch_all perSource).Pairwise (fun a b => b.published < a.published)) := by
  rcases sortDesc_go (perSource.foldl (fun acc r => acc ++ r) []) [] (by simp)
    with ⟨hp, hperm, hfil⟩
  have hperm' : (fetch_all perSource).Perm
      (perSource.foldl (fun acc r => acc ++ r) []) := by
    simpa [fetch_all, sortDesc] using hperm
  refine ⟨hperm', by simpa [fetch_all, sortDesc] using hp,
          fun t => by simpa [fetch_all, sortDesc] using hfil t, ?_⟩
  intro hnodup
  have hnodup' : ((fetch_all perSource).map (·.published)).Nodup :=
    ((hperm'.symm).map (·.published)).nodup hnodup
  have hne : (fetch_all perSource).Pairwise
      (fun a b => a.published ≠ b.published) :=
    List.pairwise_map.mp hnodup'
  have hle : (fetch_all perSource).Pairwise
      (fun a b => b.published ≤ a.published) := by
    simpa [fetch_all, sortDesc] using hp
  exact (hle.and hne).imp
    (fun hx => Nat.lt_of_le_of_ne hx.1 (fun heq => hx.2 heq.symm))

/-- C3 witness: three items timestamped 3 > 2 > 1 interleaved across two
sources come out strictly descending. -/
theorem c3_fetch_all_order_witness :
    (fetch_all [[{ sampleArticle with published := 2 }],
                [{ sampleArticle with published := 3 },
                 { sampleArticle with published := 1 }]]).Pairwise
      (fun a b => b.published < a.published) :=
  (c3_fetch_all_order [[{ sampleArticle with published := 2 }],
                       [{ sampleArticle with published := 3 },
                        { sampleArticle with published := 1 }]]).2.2.2 (by decide)

end NewsBot
